import Mathlib

/-!
Verification of the core of the `open-aasx-index` harvester.

This file gives a shallow embedding, in Lean 4, of the parts of the
harvester relevant to the checked properties:

* `harvest/config.py` — the numeric limits;
* `harvest/downloader.py` — `inspect_zip` and the streaming byte-budget
  loop of `download_file`;
* `harvest/rate_limiter.py` — `TokenBucket`, `ExponentialBackoff` and
  `RateLimiter.handle_response`;
* `harvest/sources/seeds.py` — `_is_domain_allowed`;
* `harvest/storage.py` — `CatalogEntry` / `HarvestState` serialisation and
  `deduplicate_candidates`;
* `harvest/__main__.py` — `process_candidate` and the merge step of
  `run_harvest`.

Python floats appearing in the rate limiter and in the compression ratio
are modelled as exact rationals (`ℚ`); byte counts are `ℕ`.  I/O effects
(the file on disk, the network, the clock) are made explicit: the file on
disk becomes an `Option` of its written byte count, the network becomes an
oracle function passed as an argument, and the clock becomes an explicit
timestamp argument.
-/

namespace AASX

/-! ## Constants from `harvest/config.py` -/

def MAX_DOWNLOAD_BYTES : ℕ := 50 * 1024 * 1024

def MAX_UNCOMPRESSED_BYTES : ℕ := 100 * 1024 * 1024

def MAX_ZIP_ENTRIES : ℕ := 500

def MAX_COMPRESSION_RATIO : ℕ := 100

/-! ## Zip inspection (`harvest/downloader.py`, `inspect_zip`)

A readable archive is the list of its central-directory entries, each
carrying a compressed and an uncompressed size.  An unreadable archive
(`zipfile.BadZipFile`) is modelled as `none`.  The f-string reason texts
are abstracted to tags, one per distinct reason the code can emit; the
concatenated reason string becomes the list of its tags, in the order the
code appends them. -/

structure ZipEntryInfo where
  compress_size : ℕ
  file_size : ℕ
deriving DecidableEq, Repr

inductive ZipReason where
  | tooManyEntries
  | uncompressedTooLarge
  | suspiciousRatio
  | invalidZipFile
deriving DecidableEq, Repr

structure ZipInspection where
  entry_count : ℕ
  total_compressed : ℕ
  total_uncompressed : ℕ
  compression_ratio : ℚ
  is_safe : Bool
  reason : Option (List ZipReason)
deriving DecidableEq, Repr

/-- The ratio computation of `inspect_zip`: `uncompressed / compressed`
when some bytes are compressed, else `0.0`. -/
def zipRatio (total_compressed total_uncompressed : ℕ) : ℚ :=
  if 0 < total_compressed then (total_uncompressed : ℚ) / (total_compressed : ℚ)
  else 0

/-- The `reasons` list of `inspect_zip`: the three cap checks run
independently and each violated cap appends its reason. -/
def zipReasons (entry_count total_uncompressed : ℕ) (compression_ratio : ℚ) :
    List ZipReason :=
  (if MAX_ZIP_ENTRIES < entry_count then [ZipReason.tooManyEntries] else []) ++
  (if MAX_UNCOMPRESSED_BYTES < total_uncompressed then [ZipReason.uncompressedTooLarge]
   else []) ++
  (if ( MAX_COMPRESSION_RATIO : ℚ) < compression_ratio then [ZipReason.suspiciousRatio]
   else [])

def inspect_zip (archive : Option (List ZipEntryInfo)) : ZipInspection :=
  match archive with
  | none =>
      { entry_count := 0
        total_compressed := 0
        total_uncompressed := 0
        compression_ratio := 0
        is_safe := false
        reason := some [ZipReason.invalidZipFile] }
  | some infos =>
      let entry_count : ℕ := infos.length
      let total_compressed : ℕ := (infos.map (fun i => i.compress_size)).sum
      let total_uncompressed : ℕ := (infos.map (fun i => i.file_size)).sum
      let compression_ratio : ℚ := zipRatio total_compressed total_uncompressed
      let reasons : List ZipReason :=
        zipReasons entry_count total_uncompressed compression_ratio
      { entry_count := entry_count
        total_compressed := total_compressed
        total_uncompressed := total_uncompressed
        compression_ratio := compression_ratio
        is_safe := reasons.isEmpty
        reason := if reasons.isEmpty then none else some reasons }

/-! ## Streaming download (`harvest/downloader.py`, `download_file`)

The response body is the list of its chunk sizes (the code only inspects
`len(chunk)` and the raw bytes feed the hash, which no checked property
depends on).  The state of the destination file is `some n` when a file
with `n` written bytes exists and `none` when no file exists (either never
created or deleted by `unlink`).  `download_file` is modelled from the
HEAD-probe size check down through the streaming loop; a raised
`FileTooLargeError` becomes `Except.error DlError.fileTooLarge`. -/

inductive DlError where
  | fileTooLarge
deriving DecidableEq, Repr

/-- The streaming loop of `download_file`: `total_bytes` accumulates chunk
lengths, the chunk that tips `total_bytes` over `max_bytes` is not written
and the partial file is unlinked. -/
def streamLoop (max_bytes : ℕ) : ℕ → ℕ → List ℕ → Except DlError ℕ × Option ℕ
  | total_bytes, written, [] => (Except.ok total_bytes, some written)
  | total_bytes, written, c :: rest =>
      let total := total_bytes + c
      if max_bytes < total then (Except.error DlError.fileTooLarge, none)
      else streamLoop max_bytes total (written + c) rest

/-- `download_file`: the HEAD probe's Content-Length check followed by the
streaming loop.  `content_length` is the declared size (`none` when the
header is absent or the HEAD request failed).  Returns the result and the
final state of the destination file. -/
def download_file (content_length : Option ℕ) (max_bytes : ℕ) (chunks : List ℕ) :
    Except DlError ℕ × Option ℕ :=
  match content_length with
  | some n =>
      if max_bytes < n then (Except.error DlError.fileTooLarge, none)
      else streamLoop max_bytes 0 0 chunks
  | none => streamLoop max_bytes 0 0 chunks

/-! ## Rate limiter (`harvest/rate_limiter.py`)

`time.monotonic()` becomes an explicit timestamp argument; `asyncio.sleep`
becomes the gap between two timestamps.  Floats become rationals. -/

structure TokenBucket where
  rate : ℚ
  capacity : ℚ
  tokens : ℚ
  last_update : ℚ
deriving DecidableEq, Repr

namespace TokenBucket

/-- `TokenBucket.__post_init__`: a bucket starts full. -/
def init (rate capacity : ℚ) (now : ℚ) : TokenBucket :=
  { rate := rate, capacity := capacity, tokens := capacity, last_update := now }

/-- `TokenBucket._refill`. -/
def refill (b : TokenBucket) (now : ℚ) : TokenBucket :=
  { b with
    tokens := min b.capacity (b.tokens + (now - b.last_update) * b.rate)
    last_update := now }

/-- `TokenBucket.acquire`: refill, then either consume a token (wait 0) or
report the wait for the next token without consuming. -/
def acquire (b : TokenBucket) (now : ℚ) : TokenBucket × ℚ :=
  let b := b.refill now
  if 1 ≤ b.tokens then ({ b with tokens := b.tokens - 1 }, 0)
  else (b, (1 - b.tokens) / b.rate)

/-- `TokenBucket.acquire_async`: acquire at `now`; on a nonzero wait, sleep
until `later` (the wake-up instant, `later - now ≥` the reported wait),
then refill and consume the token. -/
def acquire_async (b : TokenBucket) (now later : ℚ) : TokenBucket :=
  let r := b.acquire now
  if 0 < r.2 then
    let b2 := r.1.refill later
    { b2 with tokens := b2.tokens - 1 }
  else r.1

/-- `n` successive `acquire` calls all made at the same instant `now`
(a rapid burst), keeping only the bucket state. -/
def acquireIter (b : TokenBucket) (now : ℚ) : ℕ → TokenBucket
  | 0 => b
  | n + 1 => ((b.acquireIter now n).acquire now).1

/-- The invariant claimed of the bucket: the token count stays within
`[0, capacity]`. -/
def Inv (b : TokenBucket) : Prop :=
  0 ≤ b.tokens ∧ b.tokens ≤ b.capacity

end TokenBucket

structure ExponentialBackoff where
  base_delay : ℚ
  max_delay : ℚ
  multiplier : ℚ
  current_delay : ℚ
  consecutive_failures : ℕ
deriving DecidableEq, Repr

namespace ExponentialBackoff

/-- `ExponentialBackoff()` with `__post_init__`: delay starts at
`base_delay`, no failures recorded.  The Python defaults are
`base_delay=1.0, max_delay=60.0, multiplier=2.0`. -/
def init (base_delay max_delay multiplier : ℚ) : ExponentialBackoff :=
  { base_delay := base_delay
    max_delay := max_delay
    multiplier := multiplier
    current_delay := base_delay
    consecutive_failures := 0 }

/-- `ExponentialBackoff.record_failure`: returns the delay to wait (the
delay before the update) and the updated tracker. -/
def record_failure (b : ExponentialBackoff) : ℚ × ExponentialBackoff :=
  (b.current_delay,
   { b with
     consecutive_failures := b.consecutive_failures + 1
     current_delay := min (b.current_delay * b.multiplier) b.max_delay })

/-- `ExponentialBackoff.record_success`. -/
def record_success (b : ExponentialBackoff) : ExponentialBackoff :=
  { b with current_delay := b.base_delay, consecutive_failures := 0 }

/-- The invariant claimed of the tracker: the delay stays within
`[base_delay, max_delay]`. -/
def Inv (b : ExponentialBackoff) : Prop :=
  b.base_delay ≤ b.current_delay ∧ b.current_delay ≤ b.max_delay

end ExponentialBackoff

/-- `RateLimiter.handle_response` acting on the source's backoff tracker:
returns the updated tracker and the retry decision.  `wait_after_failure`
is `record_failure` plus a sleep of the returned delay; only the state
update is kept here. -/
def handle_response (b : ExponentialBackoff) (status_code : ℕ) :
    ExponentialBackoff × Bool :=
  if status_code = 429 ∨ status_code = 503 then
    ((b.record_failure).2, true)
  else if status_code = 403 then
    if b.consecutive_failures < 3 then ((b.record_failure).2, true)
    else (b, false)
  else if 200 ≤ status_code ∧ status_code < 300 then
    (b.record_success, false)
  else
    (b, false)

/-! ## Domain allowlist (`harvest/sources/seeds.py`, `_is_domain_allowed`)

The function receives a URL and reads `urlparse(url).netloc`; the model
takes that network-location string directly, as a list of characters so
that lowercasing and suffix tests are elementwise. -/

def lowerStr (s : List Char) : List Char := s.map Char.toLower

/-- `_is_domain_allowed`: empty allowlist allows everything; otherwise the
lowercased netloc must equal a lowercased allowlisted domain or end with
`"." + domain`. -/
def is_domain_allowed (netloc : List Char) (allowed_domains : List (List Char)) : Bool :=
  if allowed_domains.isEmpty then true
  else
    let domain := lowerStr netloc
    allowed_domains.any (fun a =>
      let al := lowerStr a
      decide (domain = al) || decide (('.' :: al) <:+ domain))

/-! ## Storage (`harvest/storage.py`)

JSON-ish values for the `dict[str, Any]` payload fields. -/

inductive JVal where
  | str : String → JVal
  | num : ℤ → JVal
  | nul : JVal
deriving DecidableEq, Repr

/-- `None`-or-string fields (`source_ref`, `license`, …) as stored in the
entry dictionaries. -/
def jOptStr : Option String → JVal
  | some s => JVal.str s
  | none => JVal.nul

/-- `CatalogEntry` (dataclass): payload dictionaries are ordered key/value
lists, exactly as the code constructs them.  `metadata` defaults to the
empty dict. -/
structure CatalogEntry where
  id : String
  file : List (String × JVal)
  provenance : List (String × JVal)
  verification : List (String × JVal)
  metadata : List (String × JVal) := []
deriving DecidableEq, Repr

/-- The dictionary produced by `CatalogEntry.to_dict` and consumed by
`CatalogEntry.from_dict`; `metadata` is optional on the way in
(`data.get("metadata", {})`). -/
structure CatalogEntryDict where
  id : String
  file : List (String × JVal)
  provenance : List (String × JVal)
  verification : List (String × JVal)
  metadata : Option (List (String × JVal))
deriving DecidableEq, Repr

def CatalogEntry.to_dict (e : CatalogEntry) : CatalogEntryDict :=
  { id := e.id
    file := e.file
    provenance := e.provenance
    verification := e.verification
    metadata := some e.metadata }

def CatalogEntry.from_dict (d : CatalogEntryDict) : CatalogEntry :=
  { id := d.id
    file := d.file
    provenance := d.provenance
    verification := d.verification
    metadata := d.metadata.getD [] }

/-- `HarvestState` (dataclass): the seen-sets are Python `set`s, modelled
as `Finset String`. -/
structure HarvestState where
  github_cursor : Option String := none
  commoncrawl_cursor : Option String := none
  seen_urls : Finset String := ∅
  seen_sha256 : Finset String := ∅
  last_run : Option String := none
deriving DecidableEq

/-- The dictionary produced by `HarvestState.to_dict`: the sets are
encoded as lists (`list(self.seen_urls)`).  Python enumerates a `set` in
an unspecified order; the model fixes the sorted enumeration as the
representative order. -/
structure HarvestStateDict where
  github_cursor : Option String
  commoncrawl_cursor : Option String
  seen_urls : List String
  seen_sha256 : List String
  last_run : Option String
deriving DecidableEq

def HarvestState.to_dict (s : HarvestState) : HarvestStateDict :=
  { github_cursor := s.github_cursor
    commoncrawl_cursor := s.commoncrawl_cursor
    seen_urls := s.seen_urls.sort (· ≤ ·)
    seen_sha256 := s.seen_sha256.sort (· ≤ ·)
    last_run := s.last_run }

def HarvestState.from_dict (d : HarvestStateDict) : HarvestState :=
  { github_cursor := d.github_cursor
    commoncrawl_cursor := d.commoncrawl_cursor
    seen_urls := d.seen_urls.toFinset
    seen_sha256 := d.seen_sha256.toFinset
    last_run := d.last_run }

/-- A candidate dictionary, as produced by the discovery sources and
consumed by `deduplicate_candidates` / `process_candidate`.  `url := none`
models a dict without a `"url"` key (`candidate.get("url")` is `None`);
the code treats the empty string the same way through Python truthiness. -/
structure Candidate where
  url : Option String := none
  source_type : Option String := none
  source_ref : Option String := none
  license : Option String := none
deriving DecidableEq, Repr

/-- Python truthiness of `candidate.get("url")`: present and nonempty. -/
def Candidate.truthyUrl (c : Candidate) : Option String :=
  match c.url with
  | some u => if u = "" then none else some u
  | none => none

/-- `deduplicate_candidates`: keep a candidate iff
`url and url not in state.seen_urls`. -/
def deduplicate_candidates (candidates : List Candidate) (state : HarvestState) :
    List Candidate :=
  match candidates with
  | [] => []
  | c :: rest =>
      match c.truthyUrl with
      | some u =>
          if u ∈ state.seen_urls then deduplicate_candidates rest state
          else c :: deduplicate_candidates rest state
      | none => deduplicate_candidates rest state

/-! ## Orchestrator (`harvest/__main__.py`)

The network, the verifier, the extractor and the clock are oracles passed
in as arguments: `dl` maps a URL to either a download result or the
message of the raised `DownloadError`; `verify` and `extract` map a
download result to the dictionaries `verification_result.to_dict()` and
`extraction_result.to_dict()`. -/

/-- The fields of `DownloadResult` that `process_candidate` reads. -/
structure DownloadResultM where
  sha256 : String
  size_bytes : ℕ
  filename : Option String
deriving DecidableEq, Repr

/-- The placeholder fingerprint `f"sha256-{'0' * 64}"` used for failed
downloads. -/
def placeholder_id : String :=
  "sha256-" ++ String.mk (List.replicate 64 '0')

/-- The "failed" entry `process_candidate` builds when `download_file`
raises; `now` is `datetime.now(UTC).isoformat()`. -/
def failed_entry (c : Candidate) (u : String) (msg : String) (now : String) :
    CatalogEntry :=
  { id := placeholder_id
    file := [("url", JVal.str u), ("sha256", JVal.str "")]
    provenance :=
      [("source_type", JVal.str (c.source_type.getD "unknown")),
       ("source_ref", jOptStr c.source_ref),
       ("license", jOptStr c.license),
       ("discovered_at", JVal.str now)]
    verification :=
      [("status", JVal.str "failed"),
       ("summary", JVal.str ("Download failed: " ++ msg))] }

/-- The entry `process_candidate` builds from a successful download:
verification and extraction results come from the collaborator oracles. -/
def success_entry (c : Candidate) (u : String)
    (verify extract : DownloadResultM → List (String × JVal))
    (now : String) (r : DownloadResultM) : CatalogEntry :=
  { id := "sha256-" ++ r.sha256
    file :=
      [("url", JVal.str u),
       ("size_bytes", JVal.num r.size_bytes),
       ("sha256", JVal.str r.sha256),
       ("filename", jOptStr r.filename)]
    provenance :=
      [("source_type", JVal.str (c.source_type.getD "unknown")),
       ("source_ref", jOptStr c.source_ref),
       ("license", jOptStr c.license),
       ("discovered_at", JVal.str now),
       ("last_verified_at", JVal.str now)]
    verification := verify r
    metadata := extract r }

/-- The `try download / except DownloadError` split of `process_candidate`. -/
def entry_of_download (c : Candidate) (u : String)
    (verify extract : DownloadResultM → List (String × JVal)) (now : String) :
    Except String DownloadResultM → CatalogEntry
  | Except.error msg => failed_entry c u msg now
  | Except.ok r => success_entry c u verify extract now r

/-- `process_candidate`. -/
def process_candidate (dl : String → Except String DownloadResultM)
    (verify extract : DownloadResultM → List (String × JVal))
    (now : String) (c : Candidate) : Option CatalogEntry :=
  match c.truthyUrl with
  | none => none
  | some u => some (entry_of_download c u verify extract now (dl u))

/-- The processing loop of `run_harvest`: iterate the deduplicated
candidates, stopping once `max_validate` candidates have been attempted
(each attempt counts whether or not it yields an entry), and collect the
returned entries. -/
def run_new_entries (dl : String → Except String DownloadResultM)
    (verify extract : DownloadResultM → List (String × JVal))
    (now : String) (candidates : List Candidate) (max_validate : ℕ) :
    List CatalogEntry :=
  (candidates.take max_validate).filterMap (process_candidate dl verify extract now)

/-- One step of building the Python dict `entries_by_id`: assignment
`d[k] = v` updates the value in place when the key exists and appends
otherwise (insertion order). -/
def dictInsert (d : List (String × CatalogEntry)) (k : String) (v : CatalogEntry) :
    List (String × CatalogEntry) :=
  if d.any (fun p => p.1 = k) then
    d.map (fun p => if p.1 = k then (k, v) else p)
  else d ++ [(k, v)]

/-- `{e.id: e for e in existing_entries}`. -/
def entries_by_id (entries : List CatalogEntry) : List (String × CatalogEntry) :=
  entries.foldl (fun d e => dictInsert d e.id e) []

/-- The merge step of `run_harvest` (lines 268–275): build
`entries_by_id` from the existing catalog, overwrite/add each new entry by
id, and take the dict's values. -/
def mergeEntries (existing newEntries : List CatalogEntry) : List CatalogEntry :=
  (newEntries.foldl (fun d e => dictInsert d e.id e) (entries_by_id existing)).map
    (fun p => p.2)

/-! ## Theorems -/

/-- **C10**: serialization round-trips: `HarvestState.from_dict ∘ to_dict`
is the identity (cursors, seen-URL set, seen-hash set and last-run
timestamp preserved, the sets surviving the list encoding), and
`CatalogEntry.from_dict ∘ to_dict` is the identity. -/
theorem serialization_roundtrip :
    (∀ s : HarvestState, HarvestState.from_dict s.to_dict = s) ∧
    (∀ e : CatalogEntry, CatalogEntry.from_dict e.to_dict = e) := by
  constructor
  · intro s
    cases s
    simp [HarvestState.to_dict, HarvestState.from_dict, Finset.sort_toFinset]
  · intro e
    cases e
    simp [CatalogEntry.to_dict, CatalogEntry.from_dict]

/-- **C9**: the domain check accepts everything when the allowlist is
empty; otherwise it accepts exactly when the lowercased network location
equals a (lowercased) allowlisted domain or ends with `"."` followed by
one; a host merely containing an allowlisted domain as a bare substring,
such as `evilexample.com` against `example.com`, is rejected. -/
theorem is_domain_allowed_spec :
    (∀ netloc : List Char, is_domain_allowed netloc [] = true) ∧
    (∀ (netloc : List Char) (allowed : List (List Char)), allowed ≠ [] →
      (is_domain_allowed netloc allowed = true ↔
        ∃ a ∈ allowed, lowerStr netloc = lowerStr a ∨
          ('.' :: lowerStr a) <:+ lowerStr netloc)) ∧
    is_domain_allowed "evilexample.com".toList ["example.com".toList] = false := by
  refine ⟨fun netloc => rfl, fun netloc allowed h => ?_, by decide⟩
  simp [is_domain_allowed, List.isEmpty_iff, h, List.any_eq_true]

/-- **C7**: `handle_response` retries exactly on 429, 503, and on 403
while the consecutive-failure count is below 3 (giving up at 3); the
retried cases go through a backoff failure (`record_failure`); any 2xx
resets the backoff and does not retry; all other codes leave the tracker
unchanged and do not retry. -/
theorem handle_response_spec (b : ExponentialBackoff) (s : ℕ) :
    ((handle_response b s).2 = true ↔
      (s = 429 ∨ s = 503 ∨ (s = 403 ∧ b.consecutive_failures < 3))) ∧
    (s = 429 ∨ s = 503 → handle_response b s = ((b.record_failure).2, true)) ∧
    (s = 403 → b.consecutive_failures < 3 →
      handle_response b s = ((b.record_failure).2, true)) ∧
    (s = 403 → 3 ≤ b.consecutive_failures → handle_response b s = (b, false)) ∧
    (200 ≤ s → s < 300 → handle_response b s = (b.record_success, false)) ∧
    (s ≠ 429 → s ≠ 503 → s ≠ 403 → ¬(200 ≤ s ∧ s < 300) →
      handle_response b s = (b, false)) := by
  unfold handle_response
  split_ifs with h1 h2 h3 h4 <;> (simp_all; try omega)

/-- Witness for `handle_response_spec`: on a fresh tracker, 429 retries,
403 retries (0 failures so far), 404 does not. -/
theorem handle_response_spec_witness :
    (handle_response (ExponentialBackoff.init 1 60 2) 429).2 = true ∧
    (handle_response (ExponentialBackoff.init 1 60 2) 403).2 = true ∧
    handle_response (ExponentialBackoff.init 1 60 2) 404 =
      (ExponentialBackoff.init 1 60 2, false) :=
  ⟨(handle_response_spec (ExponentialBackoff.init 1 60 2) 429).1.mpr (Or.inl rfl),
   (handle_response_spec (ExponentialBackoff.init 1 60 2) 403).1.mpr
     (Or.inr (Or.inr ⟨rfl, by decide⟩)),
   (handle_response_spec (ExponentialBackoff.init 1 60 2) 404).2.2.2.2.2
     (by decide) (by decide) (by decide) (by decide)⟩

/-- **C8**: the backoff delay stays in `[base_delay, max_delay]`: it
starts at `base_delay`; `record_failure` returns the pre-update delay and
then multiplies it by the factor, capped at `max_delay`; `record_success`
resets the delay to `base_delay` and the failure count to zero. -/
theorem backoff_delay_bounds (b : ExponentialBackoff)
    (h0 : 0 ≤ b.base_delay) (hbm : b.base_delay ≤ b.max_delay)
    (hm : 1 ≤ b.multiplier) :
    (ExponentialBackoff.init b.base_delay b.max_delay b.multiplier).Inv ∧
    (b.Inv →
      (b.record_failure).1 = b.current_delay ∧
      (b.record_failure).2.Inv ∧
      (b.record_failure).2.consecutive_failures = b.consecutive_failures + 1) ∧
    ((b.record_success).current_delay = b.base_delay ∧
     (b.record_success).consecutive_failures = 0 ∧
     (b.record_success).Inv) := by
  refine ⟨⟨le_refl _, hbm⟩, fun hinv => ⟨rfl, ⟨?_, ?_⟩, rfl⟩, rfl, rfl, le_refl _, hbm⟩
  · refine le_min ?_ hbm
    calc b.base_delay ≤ b.current_delay := hinv.1
      _ = b.current_delay * 1 := (mul_one _).symm
      _ ≤ b.current_delay * b.multiplier :=
        mul_le_mul_of_nonneg_left hm (h0.trans hinv.1)
  · exact min_le_right _ _

/-- Witness for `backoff_delay_bounds` at the Python defaults
(`base=1, max=60, multiplier=2`) on a fresh tracker. -/
theorem backoff_delay_bounds_witness :
    ((ExponentialBackoff.init 1 60 2).record_failure).2.Inv :=
  ((backoff_delay_bounds (ExponentialBackoff.init 1 60 2)
    (by norm_num [ExponentialBackoff.init]) (by norm_num [ExponentialBackoff.init])
    (by norm_num [ExponentialBackoff.init])).2.1
    ⟨le_refl _, by norm_num [ExponentialBackoff.init]⟩).2.1

/-- Witness for `is_domain_allowed_spec`: a proper subdomain of an
allowlisted domain is accepted. -/
theorem is_domain_allowed_spec_witness :
    is_domain_allowed "files.example.com".toList ["example.com".toList] = true :=
  (is_domain_allowed_spec.2.1 "files.example.com".toList ["example.com".toList]
    (by decide)).mpr ⟨"example.com".toList, by decide, Or.inr (by decide)⟩

/-- Helper for C1: emptiness of the reasons list characterises the three
caps all holding. -/
theorem zipReasons_eq_nil_iff (ec tu : ℕ) (r : ℚ) :
    zipReasons ec tu r = [] ↔
      (¬MAX_ZIP_ENTRIES < ec ∧ ¬MAX_UNCOMPRESSED_BYTES < tu ∧
       ¬( MAX_COMPRESSION_RATIO : ℚ) < r) := by
  unfold zipReasons
  split_ifs <;> simp_all

/-- Helper for C1: a violated entry cap contributes its reason. -/
theorem zipReasons_mem_entries (ec tu : ℕ) (r : ℚ) (h : MAX_ZIP_ENTRIES < ec) :
    ZipReason.tooManyEntries ∈ zipReasons ec tu r := by
  unfold zipReasons
  split_ifs <;> simp_all

/-- Helper for C1: a violated size cap contributes its reason. -/
theorem zipReasons_mem_size (ec tu : ℕ) (r : ℚ) (h : MAX_UNCOMPRESSED_BYTES < tu) :
    ZipReason.uncompressedTooLarge ∈ zipReasons ec tu r := by
  unfold zipReasons
  split_ifs <;> simp_all

/-- Helper for C1: a violated ratio cap contributes its reason. -/
theorem zipReasons_mem_ratio (ec tu : ℕ) (r : ℚ)
    (h : ( MAX_COMPRESSION_RATIO : ℚ) < r) :
    ZipReason.suspiciousRatio ∈ zipReasons ec tu r := by
  unfold zipReasons
  split_ifs <;> simp_all

/-- **C1**: `inspect_zip` is unsafe exactly when the archive is unreadable
(with the distinct invalid-ZIP reason) or one of the three caps is
violated; every violated cap contributes its reason to the reason list; a
safe archive has reason `none`; the ratio is `uncompressed / compressed`,
taken as `0` when the compressed total is `0`. -/
theorem inspect_zip_spec (a : Option (List ZipEntryInfo)) :
    ((inspect_zip a).is_safe = false ↔
      (a = none ∨ MAX_ZIP_ENTRIES < (inspect_zip a).entry_count ∨
        MAX_UNCOMPRESSED_BYTES < (inspect_zip a).total_uncompressed ∨
        ( MAX_COMPRESSION_RATIO : ℚ) < (inspect_zip a).compression_ratio)) ∧
    (a = none → (inspect_zip a).reason = some [ZipReason.invalidZipFile]) ∧
    (MAX_ZIP_ENTRIES < (inspect_zip a).entry_count →
      ∃ l, (inspect_zip a).reason = some l ∧ ZipReason.tooManyEntries ∈ l) ∧
    (MAX_UNCOMPRESSED_BYTES < (inspect_zip a).total_uncompressed →
      ∃ l, (inspect_zip a).reason = some l ∧ ZipReason.uncompressedTooLarge ∈ l) ∧
    (( MAX_COMPRESSION_RATIO : ℚ) < (inspect_zip a).compression_ratio →
      ∃ l, (inspect_zip a).reason = some l ∧ ZipReason.suspiciousRatio ∈ l) ∧
    ((inspect_zip a).is_safe = true → (inspect_zip a).reason = none) ∧
    ((inspect_zip a).compression_ratio =
      if 0 < (inspect_zip a).total_compressed then
        ((inspect_zip a).total_uncompressed : ℚ) / ((inspect_zip a).total_compressed : ℚ)
      else 0) ∧
    (∀ infos, a = some infos →
      (inspect_zip a).entry_count = infos.length ∧
      (inspect_zip a).total_compressed = (infos.map (fun i => i.compress_size)).sum ∧
      (inspect_zip a).total_uncompressed = (infos.map (fun i => i.file_size)).sum) := by
  cases a with
  | none =>
      refine ⟨by simp [inspect_zip], fun _ => rfl, ?_, ?_, ?_, ?_, ?_, ?_⟩ <;>
        simp [inspect_zip, MAX_ZIP_ENTRIES, MAX_UNCOMPRESSED_BYTES, MAX_COMPRESSION_RATIO]
  | some infos =>
      have hproj : inspect_zip (some infos) =
          { entry_count := infos.length
            total_compressed := (infos.map (fun i => i.compress_size)).sum
            total_uncompressed := (infos.map (fun i => i.file_size)).sum
            compression_ratio :=
              zipRatio (infos.map (fun i => i.compress_size)).sum
                (infos.map (fun i => i.file_size)).sum
            is_safe :=
              (zipReasons infos.length (infos.map (fun i => i.file_size)).sum
                (zipRatio (infos.map (fun i => i.compress_size)).sum
                  (infos.map (fun i => i.file_size)).sum)).isEmpty
            reason :=
              if (zipReasons infos.length (infos.map (fun i => i.file_size)).sum
                    (zipRatio (infos.map (fun i => i.compress_size)).sum
                      (infos.map (fun i => i.file_size)).sum)).isEmpty then none
              else
                some (zipReasons infos.length (infos.map (fun i => i.file_size)).sum
                  (zipRatio (infos.map (fun i => i.compress_size)).sum
                    (infos.map (fun i => i.file_size)).sum)) } := rfl
      rw [hproj]
      set ec := infos.length with hec
      set tc := (infos.map (fun i => i.compress_size)).sum with htc
      set tu := (infos.map (fun i => i.file_size)).sum with htu
      set r := zipRatio tc tu with hr
      set rs := zipReasons ec tu r with hrs
      have hnil : rs = [] ↔
          (¬MAX_ZIP_ENTRIES < ec ∧ ¬MAX_UNCOMPRESSED_BYTES < tu ∧
           ¬( MAX_COMPRESSION_RATIO : ℚ) < r) := zipReasons_eq_nil_iff ec tu r
      refine ⟨?_, by simp, fun h => ?_, fun h => ?_, fun h => ?_, fun hs => ?_, rfl,
        fun infos2 h2 => ?_⟩
      · show rs.isEmpty = false ↔
          (some infos = none ∨ MAX_ZIP_ENTRIES < ec ∨ MAX_UNCOMPRESSED_BYTES < tu ∨
            ( MAX_COMPRESSION_RATIO : ℚ) < r)
        rw [Bool.eq_false_iff, Ne, List.isEmpty_iff, hnil]
        constructor
        · intro hne
          simp only [not_and_or, not_not] at hne
          tauto
        · intro hdis hcon
          rcases hdis with hdis | hdis | hdis | hdis
          · exact Option.noConfusion hdis
          · exact hcon.1 hdis
          · exact hcon.2.1 hdis
          · exact hcon.2.2 hdis
      · have hne : rs.isEmpty = false := by
          rw [Bool.eq_false_iff, Ne, List.isEmpty_iff, hnil]
          tauto
        refine ⟨rs, ?_, hrs ▸ zipReasons_mem_entries ec tu r h⟩
        show (if rs.isEmpty = true then none else some rs) = some rs
        rw [hne]
        simp
      · have hne : rs.isEmpty = false := by
          rw [Bool.eq_false_iff, Ne, List.isEmpty_iff, hnil]
          tauto
        refine ⟨rs, ?_, hrs ▸ zipReasons_mem_size ec tu r h⟩
        show (if rs.isEmpty = true then none else some rs) = some rs
        rw [hne]
        simp
      · have hne : rs.isEmpty = false := by
          rw [Bool.eq_false_iff, Ne, List.isEmpty_iff, hnil]
          tauto
        refine ⟨rs, ?_, hrs ▸ zipReasons_mem_ratio ec tu r h⟩
        show (if rs.isEmpty = true then none else some rs) = some rs
        rw [hne]
        simp
      · have hs2 : rs.isEmpty = true := hs
        show (if rs.isEmpty = true then none else some rs) = none
        rw [hs2]
        simp
      · cases h2
        exact ⟨rfl, rfl, rfl⟩

/-- Witness for `inspect_zip_spec`: a one-entry archive that expands a
single compressed byte to a gigabyte violates both the uncompressed-size
cap and the ratio cap, and both reasons are reported. -/
theorem inspect_zip_spec_witness :
    (∃ l, (inspect_zip (some [⟨1, 1000000000⟩])).reason = some l ∧
      ZipReason.uncompressedTooLarge ∈ l) ∧
    (∃ l, (inspect_zip (some [⟨1, 1000000000⟩])).reason = some l ∧
      ZipReason.suspiciousRatio ∈ l) ∧
    (inspect_zip (some [⟨1, 1000000000⟩])).is_safe = false :=
  ⟨(inspect_zip_spec (some [⟨1, 1000000000⟩])).2.2.2.1
      (by norm_num [inspect_zip, MAX_UNCOMPRESSED_BYTES]),
   (inspect_zip_spec (some [⟨1, 1000000000⟩])).2.2.2.2.1
      (by norm_num [inspect_zip, zipRatio, MAX_COMPRESSION_RATIO]),
   (inspect_zip_spec (some [⟨1, 1000000000⟩])).1.mpr
      (Or.inr (Or.inr (Or.inl (by norm_num [inspect_zip, MAX_UNCOMPRESSED_BYTES]))))⟩

/-- Helper for C2: once the running total is still within budget but the
remaining chunks push it over, the streaming loop fails with
`fileTooLarge` and leaves no file. -/
theorem streamLoop_exceeds (max_bytes : ℕ) :
    ∀ (chunks : List ℕ) (t w : ℕ), t ≤ max_bytes → max_bytes < t + chunks.sum →
      streamLoop max_bytes t w chunks = (Except.error DlError.fileTooLarge, none) := by
  intro chunks
  induction chunks with
  | nil => intro t w ht h; simp at h; omega
  | cons c rest ih =>
      intro t w ht h
      simp only [streamLoop]
      split_ifs with hc
      · rfl
      · exact ih (t + c) (w + c) (by omega) (by simp at h ⊢; omega)

/-- **C2**: whenever the streamed body is longer than the byte budget,
`download_file` fails with `FileTooLargeError` and leaves no partial file
on disk, whatever the declared Content-Length was (absent or lying). -/
theorem download_file_byte_budget (content_length : Option ℕ) (max_bytes : ℕ)
    (chunks : List ℕ) (h : max_bytes < chunks.sum) :
    download_file content_length max_bytes chunks =
      (Except.error DlError.fileTooLarge, none) := by
  have hs : streamLoop max_bytes 0 0 chunks = (Except.error DlError.fileTooLarge, none) :=
    streamLoop_exceeds max_bytes chunks 0 0 (Nat.zero_le _) (by omega)
  cases content_length with
  | none => exact hs
  | some n =>
      simp only [download_file]
      split_ifs with hn
      · rfl
      · exact hs

/-- Witness for `download_file_byte_budget`: a 15-byte body against a
10-byte budget with a lying Content-Length of 5 fails and deletes the
file. -/
theorem download_file_byte_budget_witness :
    download_file (some 5) 10 [8, 7] = (Except.error DlError.fileTooLarge, none) ∧
    10 < [8, 7].sum :=
  ⟨download_file_byte_budget (some 5) 10 [8, 7] (by decide), by decide⟩

/-- Helper for C5: the dedup loop is the filter keeping candidates with a
truthy URL not in the seen-URL set. -/
theorem dedup_eq_filter (cands : List Candidate) (st : HarvestState) :
    deduplicate_candidates cands st =
      cands.filter (fun c =>
        match c.truthyUrl with
        | some u => !(decide (u ∈ st.seen_urls))
        | none => false) := by
  induction cands with
  | nil => rfl
  | cons c rest ih =>
      cases hu : c.truthyUrl with
      | none => simp [deduplicate_candidates, List.filter_cons, hu, ih]
      | some u =>
          by_cases hm : u ∈ st.seen_urls <;>
            simp [deduplicate_candidates, List.filter_cons, hu, hm, ih]

/-- **C5** (amended): `deduplicate_candidates` keeps exactly the
candidates that carry a truthy (present, nonempty) URL not already in the
state's seen-URL set; in particular, if every candidate URL is already
seen the result is empty; and the subsequent processing depends on the
download oracle only at the URLs of surviving candidates, so dropped
candidates are never fetched. -/
theorem deduplicate_candidates_spec (cands : List Candidate) (st : HarvestState) :
    (∀ c : Candidate, c ∈ deduplicate_candidates cands st ↔
      (c ∈ cands ∧ ∃ u, c.truthyUrl = some u ∧ u ∉ st.seen_urls)) ∧
    ((∀ c ∈ cands, ∀ u, c.truthyUrl = some u → u ∈ st.seen_urls) →
      deduplicate_candidates cands st = []) ∧
    (∀ (dl dl2 : String → Except String DownloadResultM)
       (verify extract : DownloadResultM → List (String × JVal))
       (now : String) (maxV : ℕ),
      (∀ c ∈ deduplicate_candidates cands st, ∀ u, c.truthyUrl = some u →
        dl u = dl2 u) →
      run_new_entries dl verify extract now (deduplicate_candidates cands st) maxV =
        run_new_entries dl2 verify extract now (deduplicate_candidates cands st) maxV) := by
  refine ⟨fun c => ?_, fun hall => ?_, fun dl dl2 verify extract now maxV hagree => ?_⟩
  · rw [dedup_eq_filter, List.mem_filter]
    refine and_congr_right fun _ => ?_
    cases hu : c.truthyUrl with
    | none => simp [hu]
    | some u => simp [hu]
  · rw [dedup_eq_filter]
    rw [List.filter_eq_nil_iff]
    intro c hc
    cases hu : c.truthyUrl with
    | none => simp [hu]
    | some u => simp [hu, hall c hc u hu]
  · unfold run_new_entries
    apply List.filterMap_congr
    intro c hc
    have hc2 : c ∈ deduplicate_candidates cands st := List.take_subset _ _ hc
    unfold process_candidate
    cases hu : c.truthyUrl with
    | none => rfl
    | some u =>
        exact congrArg (fun x => some (entry_of_download c u verify extract now x))
          (hagree c hc2 u hu)

/-- Witness for `deduplicate_candidates_spec`: re-offering a URL already
in the seen-set yields zero new candidates. -/
theorem deduplicate_candidates_spec_witness :
    deduplicate_candidates [{ url := some "http://x/a.aasx" }]
      { seen_urls := {"http://x/a.aasx"} } = [] :=
  (deduplicate_candidates_spec [{ url := some "http://x/a.aasx" }]
    { seen_urls := {"http://x/a.aasx"} }).2.1 (by
      intro c hc u hu
      simp at hc
      subst hc
      simp [Candidate.truthyUrl] at hu
      cases hu
      simp)

/-- Counterexample to **C5** as stated: a candidate dictionary without a
`"url"` key is dropped by `deduplicate_candidates` even though its URL is
not in the (empty) seen-URL set, so the function does not drop *exactly*
the candidates whose URL is already seen. -/
theorem deduplicate_candidates_counterexample :
    deduplicate_candidates [{ url := none }] {} = [] ∧
    deduplicate_candidates [{ url := none }] {} ≠ [{ url := none }] ∧
    ({} : HarvestState).seen_urls = ∅ :=
  ⟨rfl, by decide, rfl⟩

/-! ### The merge step (C3, C4) -/

/-- Helper for C3: assigning to an existing key rewrites that key's pair
in place. -/
theorem dictInsert_of_mem (d : List (String × CatalogEntry)) (k : String)
    (v : CatalogEntry) (h : k ∈ d.map Prod.fst) :
    dictInsert d k v = d.map (fun p => if p.1 = k then (k, v) else p) := by
  unfold dictInsert
  rw [if_pos]
  rw [List.any_eq_true]
  obtain ⟨p, hp, hpk⟩ := List.mem_map.mp h
  exact ⟨p, hp, by simp [hpk]⟩

/-- Helper for C3: assigning to a fresh key appends. -/
theorem dictInsert_of_not_mem (d : List (String × CatalogEntry)) (k : String)
    (v : CatalogEntry) (h : k ∉ d.map Prod.fst) :
    dictInsert d k v = d ++ [(k, v)] := by
  unfold dictInsert
  rw [if_neg]
  intro hany
  rw [List.any_eq_true] at hany
  obtain ⟨p, hp, hpk⟩ := hany
  exact h (List.mem_map.mpr ⟨p, hp, by simpa using hpk⟩)

/-- Helper for C3: insertion of an existing key keeps the key list. -/
theorem keys_dictInsert_of_mem (d : List (String × CatalogEntry)) (k : String)
    (v : CatalogEntry) (h : k ∈ d.map Prod.fst) :
    (dictInsert d k v).map Prod.fst = d.map Prod.fst := by
  rw [dictInsert_of_mem d k v h, List.map_map]
  apply List.map_congr_left
  intro p _
  by_cases hp : p.1 = k <;> simp [hp]

/-- Helper for C3: `dictInsert` preserves distinctness of keys. -/
theorem keys_nodup_dictInsert (d : List (String × CatalogEntry)) (k : String)
    (v : CatalogEntry) (h : (d.map Prod.fst).Nodup) :
    ((dictInsert d k v).map Prod.fst).Nodup := by
  by_cases hk : k ∈ d.map Prod.fst
  · rw [keys_dictInsert_of_mem d k v hk]
    exact h
  · rw [dictInsert_of_not_mem d k v hk]
    simp [List.nodup_append, h, hk]

/-- Every pair of the dict maps an id to the entry carrying that id. -/
def KeysMatch (d : List (String × CatalogEntry)) : Prop :=
  ∀ p ∈ d, p.1 = p.2.id

/-- Helper for C3: `dictInsert` with an entry's own id preserves
`KeysMatch`. -/
theorem keysMatch_dictInsert (d : List (String × CatalogEntry))
    (e : CatalogEntry) (h : KeysMatch d) : KeysMatch (dictInsert d e.id e) := by
  unfold dictInsert
  split_ifs
  · intro p hp
    rw [List.mem_map] at hp
    obtain ⟨q, hq, rfl⟩ := hp
    by_cases hqe : q.1 = e.id
    · rw [if_pos hqe]
    · rw [if_neg hqe]
      exact h q hq
  · intro p hp
    rw [List.mem_append] at hp
    rcases hp with hp | hp
    · exact h p hp
    · simp at hp
      simp [hp]

/-- Helper for C3: the insertion fold preserves `KeysMatch`. -/
theorem foldl_insert_keysMatch (es : List CatalogEntry) :
    ∀ d, KeysMatch d → KeysMatch (es.foldl (fun d e => dictInsert d e.id e) d) := by
  induction es with
  | nil => intro d h; exact h
  | cons e rest ih =>
      intro d h
      exact ih (dictInsert d e.id e) (keysMatch_dictInsert d e h)

/-- Helper for C3: the insertion fold preserves key distinctness. -/
theorem foldl_insert_keys_nodup (es : List CatalogEntry) :
    ∀ d, (d.map Prod.fst).Nodup →
      ((es.foldl (fun d e => dictInsert d e.id e) d).map Prod.fst).Nodup := by
  induction es with
  | nil => intro d h; exact h
  | cons e rest ih =>
      intro d h
      exact ih (dictInsert d e.id e) (keys_nodup_dictInsert d e.id e h)

/-- Helper for C3: folding entries with pairwise-fresh, mutually distinct
ids into a dict appends them in order. -/
theorem foldl_insert_of_fresh (es : List CatalogEntry) :
    ∀ d, (∀ e ∈ es, e.id ∉ d.map Prod.fst) → (es.map (fun e => e.id)).Nodup →
      es.foldl (fun d e => dictInsert d e.id e) d =
        d ++ es.map (fun e => (e.id, e)) := by
  induction es with
  | nil => intro d _ _; simp
  | cons e rest ih =>
      intro d hfresh hnd
      rw [List.map_cons, List.nodup_cons] at hnd
      have h1 : dictInsert d e.id e = d ++ [(e.id, e)] :=
        dictInsert_of_not_mem d e.id e (hfresh e (List.mem_cons_self e rest))
      simp only [List.foldl_cons, h1]
      rw [ih (d ++ [(e.id, e)]) ?_ hnd.2]
      · simp
      · intro e2 he2
        simp only [List.map_append, List.mem_append]
        rintro (hin | hin)
        · exact hfresh e2 (List.mem_cons_of_mem e he2) hin
        · simp at hin
          exact hnd.1 (hin ▸ List.mem_map.mpr ⟨e2, he2, rfl⟩)

/-- Helper for C3: on a catalog with distinct ids, `entries_by_id` is the
order-preserving pairing of each entry with its id. -/
theorem entries_by_id_of_nodup (es : List CatalogEntry)
    (h : (es.map (fun e => e.id)).Nodup) :
    entries_by_id es = es.map (fun e => (e.id, e)) := by
  unfold entries_by_id
  simpa using foldl_insert_of_fresh es [] (by simp) h

/-- **C3**: the merged catalog has at most one entry per id (the ids of
`mergeEntries existing new` are pairwise distinct, whatever the inputs),
and re-discovering an id already present overwrites that entry in place:
the merged catalog is the old one with that entry's fields refreshed, and
its length is unchanged. -/
theorem mergeEntries_spec :
    (∀ existing newEntries : List CatalogEntry,
      ((mergeEntries existing newEntries).map (fun e => e.id)).Nodup) ∧
    (∀ (existing : List CatalogEntry) (e : CatalogEntry),
      (existing.map (fun x => x.id)).Nodup → e.id ∈ existing.map (fun x => x.id) →
      mergeEntries existing [e] =
        existing.map (fun x => if x.id = e.id then e else x) ∧
      (mergeEntries existing [e]).length = existing.length) := by
  constructor
  · intro existing newEntries
    unfold mergeEntries
    have hbase0 : (([] : List (String × CatalogEntry)).map Prod.fst).Nodup := by simp
    have hnd : ((newEntries.foldl (fun d e => dictInsert d e.id e)
        (entries_by_id existing)).map Prod.fst).Nodup :=
      foldl_insert_keys_nodup newEntries (entries_by_id existing)
        (foldl_insert_keys_nodup existing [] hbase0)
    have hkm : KeysMatch (newEntries.foldl (fun d e => dictInsert d e.id e)
        (entries_by_id existing)) :=
      foldl_insert_keysMatch newEntries (entries_by_id existing)
        (foldl_insert_keysMatch existing [] (by intro p hp; simp at hp))
    rw [List.map_map]
    have : (newEntries.foldl (fun d e => dictInsert d e.id e)
        (entries_by_id existing)).map ((fun e => e.id) ∘ fun p => p.2) =
        (newEntries.foldl (fun d e => dictInsert d e.id e)
          (entries_by_id existing)).map Prod.fst := by
      apply List.map_congr_left
      intro p hp
      exact (hkm p hp).symm
    rw [this]
    exact hnd
  · intro existing e hnd hmem
    have hebi : entries_by_id existing = existing.map (fun x => (x.id, x)) :=
      entries_by_id_of_nodup existing hnd
    have hk : e.id ∈ (existing.map (fun x => (x.id, x))).map Prod.fst := by
      rw [List.map_map]
      simpa using hmem
    have hmain : mergeEntries existing [e] =
        existing.map (fun x => if x.id = e.id then e else x) := by
      unfold mergeEntries
      simp only [List.foldl_cons, List.foldl_nil]
      rw [hebi, dictInsert_of_mem _ e.id e hk, List.map_map, List.map_map]
      apply List.map_congr_left
      intro x _
      by_cases hx : x.id = e.id <;> simp [hx]
    refine ⟨hmain, ?_⟩
    rw [hmain]
    simp

/-- Witness for `mergeEntries_spec`: re-discovering id `sha256-a` refreshes
the stored entry without changing the catalog length. -/
theorem mergeEntries_spec_witness :
    mergeEntries [{ id := "sha256-a", file := [], provenance := [], verification := [] }]
        [{ id := "sha256-a", file := [], provenance := [],
           verification := [("status", JVal.str "verified")] }] =
      [{ id := "sha256-a", file := [], provenance := [],
         verification := [("status", JVal.str "verified")] }] ∧
    (mergeEntries [{ id := "sha256-a", file := [], provenance := [], verification := [] }]
        [{ id := "sha256-a", file := [], provenance := [],
           verification := [("status", JVal.str "verified")] }]).length = 1 := by
  have h := mergeEntries_spec.2
    [{ id := "sha256-a", file := [], provenance := [], verification := [] }]
    { id := "sha256-a", file := [], provenance := [],
      verification := [("status", JVal.str "verified")] }
    (by decide) (by decide)
  exact ⟨h.1.trans (by decide), h.2.trans rfl⟩

/-- **C4** (amended): a candidate whose download fails is never dropped
silently and never aborts the run: the failed entry — carrying the
human-readable reason and keyed by the constant placeholder fingerprint —
is among the run's new entries. -/
theorem failed_download_recorded (dl : String → Except String DownloadResultM)
    (verify extract : DownloadResultM → List (String × JVal)) (now : String)
    (cands : List Candidate) (maxV : ℕ) (c : Candidate) (u msg : String)
    (hc : c ∈ cands.take maxV) (hu : c.truthyUrl = some u)
    (hdl : dl u = Except.error msg) :
    failed_entry c u msg now ∈ run_new_entries dl verify extract now cands maxV ∧
    (failed_entry c u msg now).id = placeholder_id ∧
    (failed_entry c u msg now).verification =
      [("status", JVal.str "failed"),
       ("summary", JVal.str ("Download failed: " ++ msg))] := by
  refine ⟨?_, rfl, rfl⟩
  unfold run_new_entries
  rw [List.mem_filterMap]
  refine ⟨c, hc, ?_⟩
  unfold process_candidate
  rw [hu]
  show some (entry_of_download c u verify extract now (dl u)) = _
  rw [hdl]
  rfl

/-- Witness for `failed_download_recorded`. -/
theorem failed_download_recorded_witness :
    failed_entry { url := some "http://x/a.aasx" } "http://x/a.aasx" "HTTP error" "t0" ∈
      run_new_entries (fun _ => Except.error "HTTP error") (fun _ => []) (fun _ => [])
        "t0" [{ url := some "http://x/a.aasx" }] 200 :=
  (failed_download_recorded (fun _ => Except.error "HTTP error") (fun _ => [])
    (fun _ => []) "t0" [{ url := some "http://x/a.aasx" }] 200
    { url := some "http://x/a.aasx" } "http://x/a.aasx" "HTTP error"
    (by decide) (by decide) rfl).1

/-- Counterexample to **C4** as stated: two candidates both fail to
download in one run; the run's new-entry list records both, but they share
the single placeholder fingerprint, so the merged catalog keeps only one
entry — not one per failed candidate. -/
theorem failed_entries_collapse_counterexample :
    (run_new_entries (fun _ => Except.error "boom") (fun _ => []) (fun _ => [])
        "t0" [{ url := some "http://a/x.aasx" }, { url := some "http://b/y.aasx" }]
        200).length = 2 ∧
    (mergeEntries []
      (run_new_entries (fun _ => Except.error "boom") (fun _ => []) (fun _ => [])
        "t0" [{ url := some "http://a/x.aasx" }, { url := some "http://b/y.aasx" }]
        200)).length = 1 ∧
    (1 : ℕ) ≠ 2 := by
  refine ⟨rfl, ?_, by decide⟩
  rfl

/-! ### Token bucket (C6) -/

/-- Helper for C6: `_refill` keeps the token count within `[0, capacity]`
under monotone time and a nonnegative rate. -/
theorem refill_inv (b : TokenBucket) (now : ℚ) (hr : 0 ≤ b.rate)
    (ht : b.last_update ≤ now) (hinv : b.Inv) : (b.refill now).Inv := by
  obtain ⟨h0, hcap⟩ := hinv
  constructor
  · exact le_min (h0.trans hcap)
      (by nlinarith [mul_nonneg (sub_nonneg.mpr ht) hr])
  · exact min_le_left _ _

/-- Helper for C6: `acquire` keeps the token count within
`[0, capacity]`. -/
theorem acquire_inv (b : TokenBucket) (now : ℚ) (hr : 0 ≤ b.rate)
    (ht : b.last_update ≤ now) (hinv : b.Inv) : (b.acquire now).1.Inv := by
  have h := refill_inv b now hr ht hinv
  unfold TokenBucket.acquire
  dsimp only
  split_ifs with h1
  · constructor
    · show (0 : ℚ) ≤ (b.refill now).tokens - 1
      linarith
    · show (b.refill now).tokens - 1 ≤ (b.refill now).capacity
      linarith [h.2]
  · exact h

/-- Helper for C6: a strictly positive reported wait happens exactly in
the no-token branch, which does not consume and reports
`(1 - tokens) / rate`. -/
theorem acquire_wait_pos (b : TokenBucket) (now : ℚ)
    (h : 0 < (b.acquire now).2) :
    (b.acquire now).1 = b.refill now ∧
    (b.acquire now).2 = (1 - (b.refill now).tokens) / b.rate ∧
    (b.refill now).tokens < 1 := by
  unfold TokenBucket.acquire at h ⊢
  by_cases h1 : 1 ≤ (b.refill now).tokens
  · rw [if_pos h1] at h
    exact absurd h (lt_irrefl 0)
  · rw [if_neg h1] at h ⊢
    exact ⟨rfl, rfl, not_le.mp h1⟩

/-- Helper for C6: the state of a full bucket after `n ≤ capacity` burst
acquisitions all at the creation instant: `n` tokens consumed, clock
unchanged. -/
theorem acquireIter_init_eq (rate : ℚ) (k : ℕ) (t : ℚ) :
    ∀ n : ℕ, n ≤ k →
      (TokenBucket.init rate (k : ℚ) t).acquireIter t n =
        { rate := rate, capacity := (k : ℚ), tokens := (k : ℚ) - (n : ℚ),
          last_update := t } := by
  intro n
  induction n with
  | zero => intro _; simp [TokenBucket.acquireIter, TokenBucket.init]
  | succ m ih =>
      intro hm
      have hm2 : m ≤ k := Nat.le_of_succ_le hm
      have h1le : (1 : ℚ) ≤ (k : ℚ) - (m : ℚ) := by
        have : ((m : ℚ) + 1) ≤ (k : ℚ) := by exact_mod_cast hm
        linarith
      have hle : ((k : ℚ) - (m : ℚ)) ≤ (k : ℚ) := by
        have : (0 : ℚ) ≤ (m : ℚ) := by positivity
        linarith
      simp only [TokenBucket.acquireIter]
      rw [ih hm2]
      unfold TokenBucket.acquire TokenBucket.refill
      simp only [sub_self, zero_mul, add_zero]
      rw [min_eq_right hle, if_pos h1le]
      simp only
      congr 1
      push_cast
      ring

/-- **C6**: the token count always stays in `[0, capacity]` (for both the
synchronous `acquire` and the waiting `acquire_async`); when no token is
available, the reported wait is exactly `(1 - tokens) / rate` computed
after the elapsed-time refill, and nothing is consumed until the wait
elapses; when a token is available, exactly one token is consumed with
zero wait; and on a full bucket of natural capacity `k`, a rapid burst
gets `k` immediate acquisitions and the `(k+1)`-th reports a wait of
exactly `1 / rate`, which is strictly positive. -/
theorem token_bucket_spec :
    (∀ (b : TokenBucket) (now : ℚ), 0 ≤ b.rate → b.last_update ≤ now → b.Inv →
      (b.acquire now).1.Inv) ∧
    (∀ (b : TokenBucket) (now : ℚ), (b.refill now).tokens < 1 →
      (b.acquire now).2 = (1 - (b.refill now).tokens) / b.rate ∧
      (b.acquire now).1 = b.refill now) ∧
    (∀ (b : TokenBucket) (now : ℚ), 1 ≤ (b.refill now).tokens →
      (b.acquire now).1.tokens = (b.refill now).tokens - 1 ∧
      (b.acquire now).2 = 0) ∧
    (∀ (b : TokenBucket) (now later : ℚ), 0 < b.rate → 1 ≤ b.capacity →
      b.last_update ≤ now → now + (b.acquire now).2 ≤ later → b.Inv →
      (b.acquire_async now later).Inv) ∧
    (∀ (rate : ℚ) (k : ℕ) (t : ℚ), 0 < rate →
      (∀ n, n < k →
        (((TokenBucket.init rate (k : ℚ) t).acquireIter t n).acquire t).2 = 0) ∧
      (((TokenBucket.init rate (k : ℚ) t).acquireIter t k).acquire t).2 = 1 / rate ∧
      0 < 1 / rate) := by
  refine ⟨fun b now hr ht hinv => acquire_inv b now hr ht hinv,
    fun b now h1 => ?_, fun b now h1 => ?_,
    fun b now later hr hc ht hlater hinv => ?_,
    fun rate k t hrate => ⟨fun n hn => ?_, ?_, by positivity⟩⟩
  · unfold TokenBucket.acquire
    rw [if_neg (not_le.mpr h1)]
    exact ⟨rfl, rfl⟩
  · unfold TokenBucket.acquire
    rw [if_pos h1]
    exact ⟨rfl, rfl⟩
  · unfold TokenBucket.acquire_async
    dsimp only
    split_ifs with hw
    · obtain ⟨heq1, heq2, hlt⟩ := acquire_wait_pos b now hw
      rw [heq1]
      have hwait : (1 - (b.refill now).tokens) / b.rate ≤ later - now := by
        rw [heq2] at hlater
        linarith
      have hmul : 1 - (b.refill now).tokens ≤ (later - now) * b.rate := by
        rw [div_le_iff₀ hr] at hwait
        linarith
      have hX : 1 ≤ (b.refill now).tokens + (later - (b.refill now).last_update) *
          (b.refill now).rate := by
        have hlu : (b.refill now).last_update = now := rfl
        have hrr : (b.refill now).rate = b.rate := rfl
        rw [hlu, hrr]
        linarith
      have hmin : 1 ≤ min (b.refill now).capacity
          ((b.refill now).tokens + (later - (b.refill now).last_update) *
            (b.refill now).rate) := by
        refine le_min ?_ hX
        have : (b.refill now).capacity = b.capacity := rfl
        rw [this]
        exact hc
      constructor
      · show (0 : ℚ) ≤ min _ _ - 1
        linarith [hmin]
      · show min _ _ - 1 ≤ (b.refill now).capacity
        have := min_le_left (b.refill now).capacity
          ((b.refill now).tokens + (later - (b.refill now).last_update) *
            (b.refill now).rate)
        linarith
    · exact acquire_inv b now (le_of_lt hr) ht hinv
  · have hst := acquireIter_init_eq rate k t n (Nat.le_of_lt hn)
    rw [hst]
    have h1le : (1 : ℚ) ≤ (k : ℚ) - (n : ℚ) := by
      have : ((n : ℚ) + 1) ≤ (k : ℚ) := by exact_mod_cast hn
      linarith
    have hle : ((k : ℚ) - (n : ℚ)) ≤ (k : ℚ) := by
      have : (0 : ℚ) ≤ (n : ℚ) := by positivity
      linarith
    unfold TokenBucket.acquire TokenBucket.refill
    simp only [sub_self, zero_mul, add_zero]
    rw [min_eq_right hle, if_pos h1le]
  · have hst := acquireIter_init_eq rate k t k (le_refl k)
    rw [hst]
    unfold TokenBucket.acquire TokenBucket.refill
    simp only [sub_self, zero_mul, add_zero]
    have hk0 : (0 : ℚ) ≤ (k : ℚ) := by positivity
    rw [min_eq_right hk0, if_neg (by norm_num : ¬(1 : ℚ) ≤ 0)]
    norm_num

/-- Witness for `token_bucket_spec`, at the "web" bucket's parameters
(`rate = 1`, `capacity = 5`): the first burst acquisition waits zero, the
sixth waits exactly one second. -/
theorem token_bucket_spec_witness :
    (((TokenBucket.init 1 ((5 : ℕ) : ℚ) 0).acquireIter 0 0).acquire 0).2 = 0 ∧
    (((TokenBucket.init 1 ((5 : ℕ) : ℚ) 0).acquireIter 0 5).acquire 0).2 = 1 / 1 :=
  ⟨(token_bucket_spec.2.2.2.2 1 5 0 (by norm_num)).1 0 (by norm_num),
   (token_bucket_spec.2.2.2.2 1 5 0 (by norm_num)).2.1⟩

end AASX
